import Mathlib

/-!
Verification development for the Go-HTTP-Service repository.

The definitions below are a shallow embedding of the Go sources:
`src/server/counter.go` (jobs, job manager, queues, persistence),
`src/server/server.go` (connection counters, HTTP responder),
`src/test_server.ps1` (the bounded `TaskQueue`, after the script part),
`src/server/metrics.go` (percentile statistics), and
`src/handlers/jobHandlers.go` (the job submit handler).

Machine integers are modelled by `Nat`/`Int`, Go `float64` samples by `ℚ`
(the metric samples are integral millisecond counts, so no rounding error
is lost by this choice), Go maps keyed by strings by functions
`String → _`, and Go slices by `List`.  `*Job` pointers shared between the
`jobs` map and the class queues are modelled by updating both places at
once in the operations that mutate a job.
-/

namespace GoService

/-- JobStatus: the six job states of `counter.go` lines 60-67. -/
inductive JobStatus where
  | queued
  | running
  | done
  | error
  | canceled
  | timeout
deriving DecidableEq, Repr

/-- PriorityLow: `counter.go` line 73. -/
def PriorityLow : Nat := 0

/-- PriorityNormal: `counter.go` line 74. -/
def PriorityNormal : Nat := 1

/-- PriorityHigh: `counter.go` line 75. -/
def PriorityHigh : Nat := 2

/-- Job: the persistent and scheduling-relevant fields of the `Job` struct
(`counter.go` lines 79-95).  Times are modelled as `Nat` nanosecond counts,
`Result` as an optional association list standing for the result map.
The runtime-only fields (`CancelFunc`, the mutex) are not part of the
state. -/
structure Job where
  ID : String
  Task : String
  Params : List (String × String)
  Status : JobStatus
  Priority : Nat
  Progress : Nat
  ETA : Nat
  Result : Option (List (String × String))
  Error : String
  CreatedAt : Nat
  StartedAt : Option Nat
  CompletedAt : Option Nat
  Timeout : Nat
deriving DecidableEq, Repr

/-- Job.Cancel: `counter.go` lines 132-149.  Returns the Go method's
boolean together with the updated job.  Note the guard lists exactly
`JobDone`, `JobError` and `JobCanceled`; `JobTimeout` is absent. -/
def Job.Cancel (j : Job) (now : Nat) : Bool × Job :=
  if j.Status = JobStatus.done ∨ j.Status = JobStatus.error ∨ j.Status = JobStatus.canceled then
    (false, j)
  else
    (true, { j with Status := JobStatus.canceled, CompletedAt := some now })

/-- getTaskType: `counter.go` lines 459-473.  The `cpuTasks` map holds
exactly `isprime`, `factor`, `pi`, `mandelbrot` and `matrixmul`. -/
def getTaskType (task : String) : String :=
  if task = "isprime" ∨ task = "factor" ∨ task = "pi" ∨ task = "mandelbrot" ∨
      task = "matrixmul" then
    "cpu"
  else
    "io"

/-- innerLoop: one pass of the inner `j` loop of the double-loop swap sort
used by `sortQueue` (`counter.go` lines 475-487) and `calculatePercentile`
(`metrics.go` lines 209-215).  `x` is the current value at position `i`;
the list is the tail `a[i+1..]`.  Whenever `B a[j] a[i]` holds the two are
swapped: the old `a[i]` is written at position `j` and the scan continues
with the new `a[i]`.  Returns the final value at position `i` and the
updated tail. -/
def innerLoop {α : Type} (B : α → α → Bool) : α → List α → α × List α
  | x, [] => (x, [])
  | x, y :: ys =>
    if B y x then
      let r := innerLoop B y ys
      (r.1, x :: r.2)
    else
      let r := innerLoop B x ys
      (r.1, y :: r.2)

/-- swapSortGo: the outer `i` loop of the swap sort, fuelled by the number
of remaining outer iterations (the fuel equals the list length at the top
call, which is exactly how often the Go loop runs). -/
def swapSortGo {α : Type} (B : α → α → Bool) : Nat → List α → List α
  | 0, l => l
  | _ + 1, [] => []
  | fuel + 1, x :: xs =>
    let r := innerLoop B x xs
    r.1 :: swapSortGo B fuel r.2

/-- swapSort: the complete double-loop swap sort of the Go sources.
`B u v` reads "u must come before v". -/
def swapSort {α : Type} (B : α → α → Bool) (l : List α) : List α :=
  swapSortGo B l.length l

/-- sortQueue: `counter.go` lines 475-487, the per-class queue re-sort.
The Go loop swaps when `queue[j].Priority > queue[i].Priority`. -/
def sortQueue (queue : List Job) : List Job :=
  swapSort (fun a b => decide (a.Priority > b.Priority)) queue

/-- updFn updates a string-keyed function map at one key, the model of a
Go map write. -/
def updFn {β : Type} (f : String → β) (k : String) (v : β) : String → β :=
  fun s => if s = k then v else f s

/-- JobManager: the state of the `JobManager` struct (`counter.go` lines
184-198) that the queueing operations read and write.  Maps become
functions, durations become `Nat`. -/
structure JobManager where
  jobs : String → Option Job
  queues : String → List Job
  maxQueueSize : Nat
  maxConcurrent : String → Nat
  activeCounts : String → Nat
  cpuTimeout : Nat
  ioTimeout : Nat

/-- JobManager.Submit: `counter.go` lines 238-282.  Returns the new state,
the created job (if any) and the error string (if any).  The queue-full
check happens before any mutation, so the error branch returns the input
state unchanged. -/
def JobManager.Submit (jm : JobManager) (task : String) (params : List (String × String))
    (priority : Nat) (now : Nat) : JobManager × Option Job × Option String :=
  let taskType := getTaskType task
  if jm.maxQueueSize ≤ (jm.queues taskType).length then
    (jm, none, some "queue full")
  else
    let jobID := task ++ "-" ++ toString now
    let timeout := if taskType = "io" then jm.ioTimeout else jm.cpuTimeout
    let job : Job :=
      { ID := jobID, Task := task, Params := params, Status := JobStatus.queued,
        Priority := priority, Progress := 0, ETA := 0, Result := none, Error := "",
        CreatedAt := now, StartedAt := none, CompletedAt := none, Timeout := timeout }
    let jm' : JobManager :=
      { jm with
        jobs := updFn jm.jobs jobID (some job),
        queues := updFn jm.queues taskType (sortQueue (jm.queues taskType ++ [job])) }
    (jm', some job, none)

/-- JobManager.CancelJob: `counter.go` lines 297-315.  `none` models the
"job not found" error.  Because the map and the class queues share the
same `*Job` pointer in Go, cancelling rewrites the job wherever it is
referenced: the model updates the map entry and every queue entry whose
`ID` matches. -/
def JobManager.CancelJob (jm : JobManager) (jobID : String) (now : Nat) :
    Option Bool × JobManager :=
  match jm.jobs jobID with
  | none => (none, jm)
  | some job =>
    let r := job.Cancel now
    (some r.1,
      { jm with
        jobs := updFn jm.jobs jobID (some r.2),
        queues := fun c => (jm.queues c).map (fun e => if e.ID = jobID then r.2 else e) })

/-- selectNext: the inner selection loop of `processNextJob`
(`counter.go` lines 353-361): take the first job whose status is
`queued` and remove it from the queue; every other entry stays. -/
def selectNext : List Job → Option Job × List Job
  | [] => (none, [])
  | j :: rest =>
    if j.Status = JobStatus.queued then
      (some j, rest)
    else
      let r := selectNext rest
      (r.1, j :: r.2)

/-- JobManager.processNextJob: `counter.go` lines 334-386.  Go iterates
the `queues` map in unspecified order; the order is passed explicitly as
`classOrder`.  A class is skipped when its queue is empty, when its
concurrency cap is reached, or when it has no `queued` job; the first
selected job is marked `running` and the scan stops. -/
def JobManager.processNextJob : JobManager → List String → Nat → JobManager
  | jm, [], _ => jm
  | jm, c :: rest, now =>
    if (jm.queues c).length = 0 then
      jm.processNextJob rest now
    else if jm.maxConcurrent c ≤ jm.activeCounts c then
      jm.processNextJob rest now
    else
      match selectNext (jm.queues c) with
      | (none, _) => jm.processNextJob rest now
      | (some job, q') =>
        let job' := { job with Status := JobStatus.running, StartedAt := some now }
        { jm with
          jobs := updFn jm.jobs job.ID (some job'),
          queues := updFn jm.queues c q',
          activeCounts := updFn jm.activeCounts c (jm.activeCounts c + 1) }

/-- JobPersist: the serialized job record of `saveJobs`/`loadJobs`
(`counter.go` lines 496-508 and 548-560): exactly the persisted fields. -/
structure JobPersist where
  ID : String
  Task : String
  Params : List (String × String)
  Status : JobStatus
  Priority : Nat
  Progress : Nat
  Result : Option (List (String × String))
  Error : String
  CreatedAt : Nat
  StartedAt : Option Nat
  CompletedAt : Option Nat
deriving DecidableEq, Repr

/-- saveJob: the per-job projection performed by `saveJobs`
(`counter.go` lines 511-527). -/
def saveJob (j : Job) : JobPersist :=
  { ID := j.ID, Task := j.Task, Params := j.Params, Status := j.Status,
    Priority := j.Priority, Progress := j.Progress, Result := j.Result,
    Error := j.Error, CreatedAt := j.CreatedAt, StartedAt := j.StartedAt,
    CompletedAt := j.CompletedAt }

/-- saveJobs: `counter.go` lines 489-535, the serialized job list (one
record per job of the jobs map). -/
def saveJobs (jobs : List Job) : List JobPersist :=
  jobs.map saveJob

/-- restoreRecord: the status rewrite of `loadJobs` (`counter.go` lines
568-573): a record found `running` becomes `error` with message
"server restarted"; every other record is kept as is. -/
def restoreRecord (jp : JobPersist) : JobPersist :=
  if jp.Status = JobStatus.running then
    { jp with Status := JobStatus.error, Error := "server restarted" }
  else
    jp

/-- loadJob: the `Job` value rebuilt from a persisted record
(`counter.go` lines 575-587).  `ETA` and `Timeout` are not persisted and
take the Go zero value. -/
def loadJob (jp : JobPersist) : Job :=
  { ID := jp.ID, Task := jp.Task, Params := jp.Params, Status := jp.Status,
    Priority := jp.Priority, Progress := jp.Progress, ETA := 0, Result := jp.Result,
    Error := jp.Error, CreatedAt := jp.CreatedAt, StartedAt := jp.StartedAt,
    CompletedAt := jp.CompletedAt, Timeout := 0 }

/-- loadJobsAux: the restore loop of `loadJobs` (`counter.go` lines
567-596): each record is status-rewritten, inserted into the jobs map,
and appended to its class queue when still `queued`. -/
def loadJobsAux : List JobPersist → (String → Option Job) → (String → List Job) →
    (String → Option Job) × (String → List Job)
  | [], m, qs => (m, qs)
  | jp :: rest, m, qs =>
    let job := loadJob (restoreRecord jp)
    let m' := updFn m job.ID (some job)
    let qs' :=
      if job.Status = JobStatus.queued then
        updFn qs (getTaskType job.Task) (qs (getTaskType job.Task) ++ [job])
      else
        qs
    loadJobsAux rest m' qs'

/-- loadJobs: `counter.go` lines 537-597, starting from the empty jobs
map and empty class queues. -/
def loadJobs (recs : List JobPersist) : (String → Option Job) × (String → List Job) :=
  loadJobsAux recs (fun _ => none) (fun _ => [])

/-- HTTPResponse: `server.go` lines 28-33.  Go iterates the headers map
in unspecified order; the model fixes an order by using a list. -/
structure HTTPResponse where
  StatusCode : Nat
  StatusText : String
  Headers : List (String × String)
  Body : String
deriving DecidableEq, Repr

/-- statusLine: the first `WriteString` of `sendResponse` (`server.go`
line 312): the formatted `HTTP/1.1 <code> <text>\r\n`. -/
def statusLine (resp : HTTPResponse) : String :=
  "HTTP/1.1 " ++ toString resp.StatusCode ++ " " ++ resp.StatusText ++ "\r\n"

/-- headerLines: the header block written by `sendResponse` (`server.go`
lines 315-320): each caller header as `key: value`, followed by the one
injected `Content-Length` header.  No `Connection` or `Server` header is
written by this version of the responder. -/
def headerLines (resp : HTTPResponse) : List String :=
  resp.Headers.map (fun kv => kv.1 ++ ": " ++ kv.2) ++
    ["Content-Length: " ++ toString resp.Body.length]

/-- sendResponse: `server.go` lines 308-333, the bytes written to the
socket: status line, header lines each ending in CRLF, a blank line, then
the body. -/
def sendResponse (resp : HTTPResponse) : String :=
  statusLine resp ++ (String.join ((headerLines resp).map (fun l => l ++ "\r\n")) ++
    ("\r\n" ++ resp.Body))

/-- statusString: how `encoding/json` renders a `JobStatus` value. -/
def statusString : JobStatus → String
  | JobStatus.queued => "queued"
  | JobStatus.running => "running"
  | JobStatus.done => "done"
  | JobStatus.error => "error"
  | JobStatus.canceled => "canceled"
  | JobStatus.timeout => "timeout"

/-- lookupParam reads a query parameter with Go's zero-value default for
a missing map key. -/
def lookupParam (ps : List (String × String)) (k : String) : String :=
  (ps.lookup k).getD ""

/-- JobSubmitHandler: `jobHandlers.go` lines 10-79.  Returns the response
and the job-manager state after the call. -/
def JobSubmitHandler (jm : JobManager) (reqParams : List (String × String)) (now : Nat) :
    HTTPResponse × JobManager :=
  let task := lookupParam reqParams "task"
  if task = "" then
    ({ StatusCode := 400, StatusText := "Bad Request",
       Headers := [("Content-Type", "application/json")],
       Body := "\x7b\"error\": \"missing task parameter\"\x7d" }, jm)
  else
    let priority : Nat :=
      match reqParams.lookup "prio" with
      | some "low" => PriorityLow
      | some "high" => PriorityHigh
      | _ => PriorityNormal
    let params := reqParams.filter (fun kv => !(kv.1 == "task") && !(kv.1 == "prio"))
    let r := jm.Submit task params priority now
    match r.2.2 with
    | some e =>
      if e = "queue full" then
        let retryAfter : Nat := 5000
        ({ StatusCode := 503, StatusText := "Service Unavailable",
           Headers := [("Content-Type", "application/json"),
                       ("Retry-After", toString (retryAfter / 1000))],
           Body := "\x7b\"error\": \"queue full\", \"retry_after_ms\": " ++
             toString retryAfter ++ "\x7d" }, r.1)
      else
        ({ StatusCode := 500, StatusText := "Internal Server Error",
           Headers := [("Content-Type", "application/json")],
           Body := "\x7b\"error\": \"" ++ e ++ "\"\x7d" }, r.1)
    | none =>
      match r.2.1 with
      | some job =>
        ({ StatusCode := 200, StatusText := "OK",
           Headers := [("Content-Type", "application/json")],
           Body := "\x7b\n  \"job_id\": \"" ++ job.ID ++ "\",\n  \"status\": \"" ++
             statusString job.Status ++ "\"\n\x7d" }, r.1)
      | none =>
        ({ StatusCode := 500, StatusText := "Internal Server Error",
           Headers := [("Content-Type", "application/json")],
           Body := "" }, r.1)

/-- queueFullResponse: the 503 response the submit handler produces for a
full queue (`jobHandlers.go` lines 44-55). -/
def queueFullResponse : HTTPResponse :=
  { StatusCode := 503, StatusText := "Service Unavailable",
    Headers := [("Content-Type", "application/json"), ("Retry-After", "5")],
    Body := "\x7b\"error\": \"queue full\", \"retry_after_ms\": 5000\x7d" }

/-- ServerCounters: the two counters of the `Server` struct that the
connection pipeline touches (`server.go` lines 47-48). -/
structure ServerCounters where
  totalConnections : Int
  activeConns : Int
deriving DecidableEq, Repr

/-- acceptConnectionStep: one iteration of `Server.acceptConnections`
(`server.go` lines 94-129) for one accepted socket: `connCounter` and
`activeConns` are incremented (lines 113-114); if `Enqueue` fails the
connection is closed and `activeConns` decremented again (lines
122-126). -/
def acceptConnectionStep (s : ServerCounters) (enqueueOk : Bool) : ServerCounters :=
  let s1 : ServerCounters :=
    { totalConnections := s.totalConnections + 1, activeConns := s.activeConns + 1 }
  if enqueueOk then s1 else { s1 with activeConns := s1.activeConns - 1 }

/-- processConnectionStep: the counter effect of `Server.processConnection`
(`server.go` lines 258-305) on every exit path: `activeConns` is
incremented on entry (line 271) and decremented exactly once in the
deferred cleanup (line 268). -/
def processConnectionStep (s : ServerCounters) : ServerCounters :=
  let s1 : ServerCounters := { s with activeConns := s.activeConns + 1 }
  { s1 with activeConns := s1.activeConns - 1 }

/-- TaskQueue: `test_server.ps1` (the Go part of the file), lines 54-60:
the buffer, the capacity and the closed flag.  The `notEmpty` channel is a
pure wakeup signal and carries no state relevant to these claims. -/
structure TaskQueue (α : Type) where
  items : List α
  capacity : Nat
  closed : Bool
deriving DecidableEq, Repr

/-- NewTaskQueue: `test_server.ps1` lines 63-74.  Go replaces a
non-positive capacity by 100; with a `Nat` capacity the only non-positive
value is 0. -/
def NewTaskQueue (α : Type) (capacity : Nat) : TaskQueue α :=
  { items := [], capacity := if capacity = 0 then 100 else capacity, closed := false }

/-- TaskQueue.Enqueue: `test_server.ps1` lines 77-98: fail when closed,
fail when the buffer is at capacity, otherwise append. -/
def TaskQueue.Enqueue {α : Type} (q : TaskQueue α) (item : α) : Bool × TaskQueue α :=
  if q.closed then
    (false, q)
  else if q.capacity ≤ q.items.length then
    (false, q)
  else
    (true, { q with items := q.items ++ [item] })

/-- TaskQueue.Dequeue: `test_server.ps1` lines 101-113: `none` when
empty, otherwise remove and return the head. -/
def TaskQueue.Dequeue {α : Type} (q : TaskQueue α) : Option α × TaskQueue α :=
  match q.items with
  | [] => (none, q)
  | item :: rest => (some item, { q with items := rest })

/-- TaskQueue.Close: `test_server.ps1` lines 128-133: set the closed
flag (the buffer is kept). -/
def TaskQueue.Close {α : Type} (q : TaskQueue α) : TaskQueue α :=
  { q with closed := true }

/-- QOp: one client operation on the bounded task queue. -/
inductive QOp (α : Type) where
  | enq (x : α)
  | deq
  | close
deriving DecidableEq, Repr

/-- runOps executes a sequence of queue operations and returns the final
queue, the chronological list of successfully enqueued items, and the
chronological list of delivered (successfully dequeued) items. -/
def runOps {α : Type} (q : TaskQueue α) : List (QOp α) → TaskQueue α × List α × List α
  | [] => (q, [], [])
  | QOp.enq x :: ops =>
    let r := q.Enqueue x
    let rest := runOps r.2 ops
    (rest.1, if r.1 then x :: rest.2.1 else rest.2.1, rest.2.2)
  | QOp.deq :: ops =>
    let r := q.Dequeue
    let rest := runOps r.2 ops
    (rest.1, rest.2.1,
      match r.1 with
      | some x => x :: rest.2.2
      | none => rest.2.2)
  | QOp.close :: ops => runOps q.Close ops

/-- goRound: Go's `math.Round`, the nearest integer with halves rounded
away from zero, on the rational model of `float64`. -/
def goRound (x : ℚ) : ℤ :=
  if x < 0 then -⌊-x + 1 / 2⌋ else ⌊x + 1 / 2⌋

/-- round2: the two-decimal rounding `math.Round(v*100)/100` applied to
every numeric output of `metrics.go`. -/
def round2 (x : ℚ) : ℚ :=
  (goRound (x * 100) : ℚ) / 100

/-- goTrunc: Go's `int(f)` conversion from `float64`, truncation toward
zero. -/
def goTrunc (x : ℚ) : ℤ :=
  if x < 0 then -⌊-x⌋ else ⌊x⌋

/-- calculateMin: `metrics.go` lines 173-184: fold the running minimum
over the samples starting from the first one, then round. -/
def calculateMin (values : List ℚ) : ℚ :=
  if values.length = 0 then 0
  else round2 (values.foldl (fun m v => if v < m then v else m) (values.headD 0))

/-- calculateMax: `metrics.go` lines 186-197. -/
def calculateMax (values : List ℚ) : ℚ :=
  if values.length = 0 then 0
  else round2 (values.foldl (fun m v => if m < v then v else m) (values.headD 0))

/-- calculatePercentile: `metrics.go` lines 199-222: sort a copy of the
samples ascending with the double-loop swap sort (swap when
`sorted[i] > sorted[j]`), index at `int(float64(N) * percentile)` clamped
to `N-1`, and round the picked sample.  Out-of-range access (impossible
for `0 ≤ percentile`) is modelled by `getD`. -/
def calculatePercentile (values : List ℚ) (percentile : ℚ) : ℚ :=
  if values.length = 0 then 0
  else
    let sorted := swapSort (fun a b => decide (a < b)) values
    let index : ℤ := goTrunc ((sorted.length : ℚ) * percentile)
    let index2 : ℤ := if (sorted.length : ℤ) ≤ index then (sorted.length : ℤ) - 1 else index
    round2 (sorted.getD index2.toNat 0)

/-- jm0: the state `NewJobManager(1000, 100, 200, ...)` produces
(`counter.go` lines 206-231): empty maps, queue bound 1000, concurrency
caps cpu 4 and io 10 (Go map misses give 0). -/
def jm0 : JobManager :=
  { jobs := fun _ => none,
    queues := fun _ => [],
    maxQueueSize := 1000,
    maxConcurrent := fun c => if c = "cpu" then 4 else if c = "io" then 10 else 0,
    activeCounts := fun _ => 0,
    cpuTimeout := 100,
    ioTimeout := 200 }

/-- jm1: the same manager configured with queue bound 1. -/
def jm1 : JobManager :=
  { jm0 with maxQueueSize := 1 }

/-- jmFull: jm1 after one successful submission, so its `io` queue is at
capacity. -/
def jmFull : JobManager :=
  (jm1.Submit "fetch" [] PriorityNormal 1).1

/-- jobFetchEx: the job record `Submit "fetch"` creates at nanosecond 1
(an `io` task, so its timeout is the io timeout 200). -/
def jobFetchEx : Job :=
  { ID := "fetch-1", Task := "fetch", Params := [], Status := JobStatus.queued,
    Priority := PriorityNormal, Progress := 0, ETA := 0, Result := none, Error := "",
    CreatedAt := 1, StartedAt := none, CompletedAt := none, Timeout := 200 }

/-- jobTimeoutEx: a job that has reached the terminal `timeout` state. -/
def jobTimeoutEx : Job :=
  { ID := "binsearch-3", Task := "binsearch", Params := [], Status := JobStatus.timeout,
    Priority := PriorityNormal, Progress := 40, ETA := 0, Result := none,
    Error := "timeout exceeded", CreatedAt := 3, StartedAt := some 4,
    CompletedAt := some 8, Timeout := 200 }

/-- jobDoneEx: a job that has reached the terminal `done` state. -/
def jobDoneEx : Job :=
  { ID := "sleep-2", Task := "sleep", Params := [], Status := JobStatus.done,
    Priority := PriorityLow, Progress := 100, ETA := 0, Result := some [("ok", "true")],
    Error := "", CreatedAt := 2, StartedAt := some 3, CompletedAt := some 6,
    Timeout := 200 }

/-- jmC3: jm0 after submitting, in this order, the io tasks alpha
(priority normal), beta (priority normal), gamma (priority low) and delta
(priority high). -/
def jmC3 : JobManager :=
  (((((jm0.Submit "alpha" [] PriorityNormal 1).1.Submit
        "beta" [] PriorityNormal 2).1.Submit
        "gamma" [] PriorityLow 3).1.Submit
        "delta" [] PriorityHigh 4).1)

/-- pongResponse: the `/ping` handler's response. -/
def pongResponse : HTTPResponse :=
  { StatusCode := 200, StatusText := "OK",
    Headers := [("Content-Type", "text/plain")], Body := "pong" }

/-- qClosedEx: a closed task queue that still buffers one item. -/
def qClosedEx : TaskQueue Nat :=
  { items := [5], capacity := 3, closed := true }

/-- jobC6running: a job persisted while `running`. -/
def jobC6running : Job :=
  { ID := "sleep-7", Task := "sleep", Params := [("ms", "500")],
    Status := JobStatus.running, Priority := PriorityHigh, Progress := 30, ETA := 350,
    Result := none, Error := "", CreatedAt := 7, StartedAt := some 9,
    CompletedAt := none, Timeout := 200 }

/-- jobC6queued: a job persisted while still `queued`. -/
def jobC6queued : Job :=
  { ID := "fetch-8", Task := "fetch", Params := [], Status := JobStatus.queued,
    Priority := PriorityNormal, Progress := 0, ETA := 0, Result := none, Error := "",
    CreatedAt := 8, StartedAt := none, CompletedAt := none, Timeout := 200 }

/-- jobsC6: a jobs snapshot holding a running, a queued and a done job. -/
def jobsC6 : List Job :=
  [jobC6running, jobC6queued, jobDoneEx]

/-- jmCancelEx: jm1 right after submitting the io task fetch, whose job
`fetch-1` is queued in the io queue. -/
def jmCancelEx : JobManager :=
  (jm1.Submit "fetch" [] PriorityNormal 1).1

/-- C1 counterexample: `timeout` is a terminal state, yet `Job.Cancel` on
a timed-out job returns `true` and rewrites the status to `canceled`,
contradicting the claim that cancel on any terminal state returns false
and leaves the status unchanged. -/
theorem Cancel_timeout_cex :
    jobTimeoutEx.Status = JobStatus.timeout ∧
    (jobTimeoutEx.Cancel 9).1 = true ∧
    (jobTimeoutEx.Cancel 9).2.Status = JobStatus.canceled := by
  decide

/-- C1 (amended): `Job.Cancel` returns false, and leaves the job
untouched, exactly when the status is `done`, `error` or `canceled`; on a
`timeout` job it returns true and moves the status to `canceled`; whenever
it returns true the new status is `canceled`. -/
theorem Cancel_terminal_amended (j : Job) (now : Nat) :
    ((j.Status = JobStatus.done ∨ j.Status = JobStatus.error ∨
        j.Status = JobStatus.canceled) → j.Cancel now = (false, j)) ∧
    ((j.Cancel now).1 = false ↔
      (j.Status = JobStatus.done ∨ j.Status = JobStatus.error ∨
        j.Status = JobStatus.canceled)) ∧
    (j.Status = JobStatus.timeout →
      (j.Cancel now).1 = true ∧ (j.Cancel now).2.Status = JobStatus.canceled) ∧
    ((j.Cancel now).1 = true → (j.Cancel now).2.Status = JobStatus.canceled) := by
  cases hs : j.Status <;> simp [Job.Cancel, hs]

/-- C1 witness: cancelling the concrete `done` job fails and changes
nothing. -/
theorem Cancel_terminal_amended_witness :
    jobDoneEx.Cancel 9 = (false, jobDoneEx) :=
  (Cancel_terminal_amended jobDoneEx 9).1 (Or.inl rfl)

/-- C2 (code bug): a single accepted, enqueued and fully processed
connection leaves `active_connections` at 1 after the server has drained,
because `acceptConnections` increments the counter once per accept and
`processConnection` increments it again but decrements it only once; the
rejected-connection path by contrast is balanced. -/
theorem activeConns_drain_bug :
    (processConnectionStep (acceptConnectionStep ⟨0, 0⟩ true)).activeConns = 1 ∧
    ¬ (processConnectionStep (acceptConnectionStep ⟨0, 0⟩ true)).activeConns = 0 ∧
    (processConnectionStep (acceptConnectionStep ⟨0, 0⟩ true)).totalConnections = 1 ∧
    (acceptConnectionStep ⟨0, 0⟩ false).activeConns = 0 := by
  decide

/-- C4 counterexample: the `cpuTasks` map of `getTaskType` does not
contain `fibonacci`, so the fibonacci task is classified `io`, not `cpu`
as the claim states. -/
theorem getTaskType_fibonacci_cex :
    getTaskType "fibonacci" = "io" ∧ ¬ getTaskType "fibonacci" = "cpu" := by
  decide

/-- C4 (amended): a task is classified `cpu` exactly when it is one of
isprime, factor, pi, mandelbrot or matrixmul (fibonacci is therefore
`io`); every task is classified either `cpu` or `io`; and the class
selects the timeout a submitted job receives (`ioTimeout` for `io`,
`cpuTimeout` for `cpu`). -/
theorem getTaskType_cpu_iff (task : String) :
    (getTaskType task = "cpu" ↔
      (task = "isprime" ∨ task = "factor" ∨ task = "pi" ∨ task = "mandelbrot" ∨
        task = "matrixmul")) ∧
    (getTaskType task = "cpu" ∨ getTaskType task = "io") ∧
    (∀ (jm : JobManager) (params : List (String × String)) (priority now : Nat) (job : Job),
      (jm.Submit task params priority now).2.1 = some job →
      job.Timeout = (if getTaskType task = "io" then jm.ioTimeout else jm.cpuTimeout)) := by
  refine ⟨?_, ?_, ?_⟩
  · by_cases h : task = "isprime" ∨ task = "factor" ∨ task = "pi" ∨ task = "mandelbrot" ∨
        task = "matrixmul"
    · simp [getTaskType, h]
    · simp [getTaskType, h]
  · by_cases h : task = "isprime" ∨ task = "factor" ∨ task = "pi" ∨ task = "mandelbrot" ∨
        task = "matrixmul"
    · simp [getTaskType, h]
    · simp [getTaskType, h]
  · intro jm params priority now job hsub
    unfold JobManager.Submit at hsub
    by_cases hq : jm.maxQueueSize ≤ (jm.queues (getTaskType task)).length
    · simp [hq] at hsub
    · simp [hq] at hsub
      cases hsub
      rfl

/-- C4 witness: the job created by submitting the io task fetch carries
the io timeout of the manager. -/
theorem getTaskType_cpu_iff_witness :
    jobFetchEx.Timeout = (if getTaskType "fetch" = "io" then jm0.ioTimeout else jm0.cpuTimeout) :=
  (getTaskType_cpu_iff "fetch").2.2 jm0 [] PriorityNormal 1 jobFetchEx (by decide)

/-- C5 counterexample: the responder of `server.go` emits no
`Connection: close` and no `Server: CustomHTTPServer/1.0` header; on the
concrete pong response the full emitted byte string is the status line,
the caller header, the injected `Content-Length` and the body only. -/
theorem sendResponse_injected_headers_cex :
    ¬ ("Connection: close" ∈ headerLines pongResponse) ∧
    ¬ ("Server: CustomHTTPServer/1.0" ∈ headerLines pongResponse) ∧
    sendResponse pongResponse =
      "HTTP/1.1 200 OK\r\nContent-Type: text/plain\r\nContent-Length: 4\r\n\r\npong" := by
  decide

/-- C5 (amended): the emitted bytes start with the status line
`HTTP/1.1 <code> <text>\r\n`; the header block contains the injected
`Content-Length` header equal to the body length and every
caller-supplied header verbatim; `Connection: close` and
`Server: CustomHTTPServer/1.0` are not injected by the responder. -/
theorem sendResponse_format (resp : HTTPResponse) :
    (∃ rest, sendResponse resp = statusLine resp ++ rest) ∧
    (("Content-Length: " ++ toString resp.Body.length) ∈ headerLines resp) ∧
    (∀ kv ∈ resp.Headers, (kv.1 ++ ": " ++ kv.2) ∈ headerLines resp) := by
  refine ⟨⟨_, rfl⟩, ?_, ?_⟩
  · unfold headerLines
    exact List.mem_append_right _ (List.mem_singleton_self _)
  · intro kv hkv
    unfold headerLines
    exact List.mem_append_left _ (List.mem_map_of_mem _ hkv)

/-- C5 witness: the caller header of the pong response is emitted
verbatim in the header block. -/
theorem sendResponse_format_witness :
    ("Content-Type" ++ ": " ++ "text/plain") ∈ headerLines pongResponse :=
  (sendResponse_format pongResponse).2.2 ("Content-Type", "text/plain") (by decide)

/-- innerLoop on a cons with a swap: the tested element beats the current
one. -/
theorem innerLoop_cons_pos {α : Type} (B : α → α → Bool) (x y : α) (ys : List α)
    (h : B y x = true) :
    innerLoop B x (y :: ys) = ((innerLoop B y ys).1, x :: (innerLoop B y ys).2) := by
  simp [innerLoop, h]

/-- innerLoop on a cons without a swap. -/
theorem innerLoop_cons_neg {α : Type} (B : α → α → Bool) (x y : α) (ys : List α)
    (h : B y x = false) :
    innerLoop B x (y :: ys) = ((innerLoop B x ys).1, y :: (innerLoop B x ys).2) := by
  simp [innerLoop, h]

/-- innerLoop preserves the length of the scanned tail. -/
theorem innerLoop_length {α : Type} (B : α → α → Bool) (x : α) (xs : List α) :
    (innerLoop B x xs).2.length = xs.length := by
  induction xs generalizing x with
  | nil => rfl
  | cons y ys ih =>
    cases h : B y x with
    | true => rw [innerLoop_cons_pos B x y ys h]; simp [ih]
    | false => rw [innerLoop_cons_neg B x y ys h]; simp [ih]

/-- innerLoop permutes the scanned elements: the selected value together
with the updated tail is a permutation of the input. -/
theorem innerLoop_perm {α : Type} (B : α → α → Bool) (x : α) (xs : List α) :
    ((innerLoop B x xs).1 :: (innerLoop B x xs).2).Perm (x :: xs) := by
  induction xs generalizing x with
  | nil => exact List.Perm.refl _
  | cons y ys ih =>
    cases h : B y x with
    | true =>
      rw [innerLoop_cons_pos B x y ys h]
      exact (List.Perm.swap x (innerLoop B y ys).1 (innerLoop B y ys).2).trans
        ((ih y).cons x)
    | false =>
      rw [innerLoop_cons_neg B x y ys h]
      exact (List.Perm.swap y (innerLoop B x ys).1 (innerLoop B x ys).2).trans
        (((ih x).cons y).trans (List.Perm.swap x y ys))

/-- innerLoop selects a value no remaining element beats: provided `B` is
transitive and asymmetric, no element of the updated tail relates by `B`
to the selected value. -/
theorem innerLoop_best {α : Type} (B : α → α → Bool)
    (htrans : ∀ a b c, B a b = true → B b c = true → B a c = true)
    (hasymm : ∀ a b, B a b = true → B b a = false)
    (x : α) (xs : List α) :
    ((innerLoop B x xs).1 = x ∨ B (innerLoop B x xs).1 x = true) ∧
    (∀ z ∈ (innerLoop B x xs).2, B z (innerLoop B x xs).1 = false) := by
  induction xs generalizing x with
  | nil => exact ⟨Or.inl rfl, by simp [innerLoop]⟩
  | cons y ys ih =>
    cases h : B y x with
    | true =>
      rw [innerLoop_cons_pos B x y ys h]
      obtain ⟨hb, hall⟩ := ih y
      refine ⟨?_, ?_⟩
      · rcases hb with hb | hb
        · right
          rw [hb]
          exact h
        · exact Or.inr (htrans _ _ _ hb h)
      · intro z hz
        rcases List.mem_cons.mp hz with rfl | hz
        · cases hxb : B z (innerLoop B y ys).1 with
          | false => rfl
          | true =>
            exfalso
            rcases hb with hb | hb
            · rw [hb] at hxb
              rw [hasymm y z h] at hxb
              exact Bool.false_ne_true hxb
            · have hxy := htrans z _ y hxb hb
              rw [hasymm y z h] at hxy
              exact Bool.false_ne_true hxy
        · exact hall z hz
    | false =>
      rw [innerLoop_cons_neg B x y ys h]
      obtain ⟨hb, hall⟩ := ih x
      refine ⟨hb, ?_⟩
      intro z hz
      rcases List.mem_cons.mp hz with rfl | hz
      · cases hxb : B z (innerLoop B x ys).1 with
        | false => rfl
        | true =>
          exfalso
          rcases hb with hb | hb
          · rw [hb] at hxb
            rw [h] at hxb
            exact Bool.false_ne_true hxb
          · have hxy := htrans z _ x hxb hb
            rw [h] at hxy
            exact Bool.false_ne_true hxy
      · exact hall z hz

/-- swapSortGo yields a permutation of its input when given enough
fuel. -/
theorem swapSortGo_perm {α : Type} (B : α → α → Bool) :
    ∀ (fuel : Nat) (l : List α), l.length ≤ fuel → (swapSortGo B fuel l).Perm l := by
  intro fuel
  induction fuel with
  | zero => intro l _; exact List.Perm.refl _
  | succ n ih =>
    intro l h
    cases l with
    | nil => exact List.Perm.refl _
    | cons x xs =>
      simp only [swapSortGo]
      have hlen : (innerLoop B x xs).2.length ≤ n := by
        rw [innerLoop_length]
        simpa using h
      exact ((ih _ hlen).cons _).trans (innerLoop_perm B x xs)

/-- swapSortGo output has no inversion with respect to `B` (for a
transitive asymmetric `B`) when given enough fuel. -/
theorem swapSortGo_pairwise {α : Type} (B : α → α → Bool)
    (htrans : ∀ a b c, B a b = true → B b c = true → B a c = true)
    (hasymm : ∀ a b, B a b = true → B b a = false) :
    ∀ (fuel : Nat) (l : List α), l.length ≤ fuel →
      (swapSortGo B fuel l).Pairwise (fun a z => B z a = false) := by
  intro fuel
  induction fuel with
  | zero =>
    intro l h
    have : l = [] := List.eq_nil_of_length_eq_zero (Nat.le_zero.mp h)
    subst this
    exact List.Pairwise.nil
  | succ n ih =>
    intro l h
    cases l with
    | nil => exact List.Pairwise.nil
    | cons x xs =>
      simp only [swapSortGo]
      have hlen : (innerLoop B x xs).2.length ≤ n := by
        rw [innerLoop_length]
        simpa using h
      refine List.Pairwise.cons ?_ (ih _ hlen)
      intro z hz
      have hz2 : z ∈ (innerLoop B x xs).2 := ((swapSortGo_perm B n _ hlen).mem_iff).mp hz
      exact (innerLoop_best B htrans hasymm x xs).2 z hz2

/-- swapSort permutes its input. -/
theorem swapSort_perm {α : Type} (B : α → α → Bool) (l : List α) :
    (swapSort B l).Perm l :=
  swapSortGo_perm B l.length l le_rfl

/-- swapSort leaves no inversion for a transitive asymmetric `B`. -/
theorem swapSort_pairwise {α : Type} (B : α → α → Bool)
    (htrans : ∀ a b c, B a b = true → B b c = true → B a c = true)
    (hasymm : ∀ a b, B a b = true → B b a = false) (l : List α) :
    (swapSort B l).Pairwise (fun a z => B z a = false) :=
  swapSortGo_pairwise B htrans hasymm l.length l le_rfl

/-- selectNext on a priority-descending queue picks a queued job of
maximal priority among the queued entries. -/
theorem selectNext_queued_max :
    ∀ (q : List Job), q.Pairwise (fun a b => b.Priority ≤ a.Priority) →
      ∀ (j : Job) (rest : List Job), selectNext q = (some j, rest) →
        j.Status = JobStatus.queued ∧
        ∀ k ∈ q, k.Status = JobStatus.queued → k.Priority ≤ j.Priority := by
  intro q
  induction q with
  | nil =>
    intro _ j rest h
    simp [selectNext] at h
  | cons j0 q0 ih =>
    intro hq j rest hsel
    by_cases h0 : j0.Status = JobStatus.queued
    · simp only [selectNext, h0, if_true, Prod.mk.injEq, Option.some.injEq] at hsel
      obtain ⟨rfl, rfl⟩ := hsel
      refine ⟨h0, ?_⟩
      intro k hk hkq
      rcases List.mem_cons.mp hk with rfl | hk
      · exact le_refl _
      · exact (List.pairwise_cons.mp hq).1 k hk
    · simp only [selectNext, h0, if_false, Prod.mk.injEq] at hsel
      obtain ⟨hj, -⟩ := hsel
      have hrec : selectNext q0 = (some j, (selectNext q0).2) := by
        rw [← hj]
      obtain ⟨hjq, hmax⟩ := ih (List.pairwise_cons.mp hq).2 j (selectNext q0).2 hrec
      refine ⟨hjq, ?_⟩
      intro k hk hkq
      rcases List.mem_cons.mp hk with rfl | hk
      · exact absurd hkq h0
      · exact hmax k hk hkq

/-- C3 counterexample: submitting to one class, in this order, alpha
(priority normal, t=1), beta (priority normal, t=2), gamma (priority low,
t=3) and delta (priority high, t=4) leaves the re-sorted class queue as
delta, beta, alpha, gamma, and the dispatcher dequeues beta before alpha
although both have equal priority and alpha was submitted first: the
per-insert re-sort is not stable. -/
theorem sortQueue_stability_cex :
    ((jmC3.queues "io").map Job.ID = ["delta-4", "beta-2", "alpha-1", "gamma-3"]) ∧
    ((jmC3.queues "io").map Job.Priority =
      [PriorityHigh, PriorityNormal, PriorityNormal, PriorityLow]) ∧
    ((selectNext (jmC3.queues "io")).1.map Job.ID = some "delta-4") ∧
    ((selectNext (selectNext (jmC3.queues "io")).2).1.map Job.ID = some "beta-2") ∧
    ((selectNext (selectNext (selectNext (jmC3.queues "io")).2).2).1.map Job.ID =
      some "alpha-1") := by
  decide

/-- C3 (amended): the per-insert re-sort leaves the class queue a
permutation of the submitted jobs that is pairwise non-increasing in
priority, and on a priority-descending queue the dispatcher's selection
takes a queued job of maximal priority among the queued entries; ties of
equal priority, however, are not necessarily dequeued in submission
order. -/
theorem sortQueue_priority_order (queue : List Job) :
    (sortQueue queue).Perm queue ∧
    (sortQueue queue).Pairwise (fun a b => b.Priority ≤ a.Priority) ∧
    (∀ q : List Job, q.Pairwise (fun a b => b.Priority ≤ a.Priority) →
      ∀ (j : Job) (rest : List Job), selectNext q = (some j, rest) →
        j.Status = JobStatus.queued ∧
        ∀ k ∈ q, k.Status = JobStatus.queued → k.Priority ≤ j.Priority) := by
  refine ⟨swapSort_perm _ queue, ?_, selectNext_queued_max⟩
  have hp := swapSort_pairwise (fun a b => decide (a.Priority > b.Priority))
    (by intro a b c hab hbc; simp only [decide_eq_true_eq] at *; omega)
    (by intro a b hab; simp only [decide_eq_true_eq] at hab; simp only [decide_eq_false_iff_not]; omega)
    queue
  refine hp.imp ?_
  intro a b hab
  simp only [decide_eq_false_iff_not] at hab
  omega

/-- C3 witness: on the singleton queue holding the queued fetch job the
selection picks that job, which trivially has maximal priority. -/
theorem sortQueue_priority_order_witness :
    jobFetchEx.Status = JobStatus.queued ∧
    ∀ k ∈ [jobFetchEx], k.Status = JobStatus.queued → k.Priority ≤ jobFetchEx.Priority :=
  (sortQueue_priority_order []).2.2 [jobFetchEx] (by decide) jobFetchEx [] (by decide)

/-- loadJobsAux unfolds one record: insert the restored job into the map
and, when still queued, append it to its class queue. -/
theorem loadJobsAux_cons (jp : JobPersist) (rest : List JobPersist)
    (m : String → Option Job) (qs : String → List Job) :
    loadJobsAux (jp :: rest) m qs =
      loadJobsAux rest
        (updFn m (loadJob (restoreRecord jp)).ID (some (loadJob (restoreRecord jp))))
        (if (loadJob (restoreRecord jp)).Status = JobStatus.queued then
          updFn qs (getTaskType (loadJob (restoreRecord jp)).Task)
            (qs (getTaskType (loadJob (restoreRecord jp)).Task) ++ [loadJob (restoreRecord jp)])
        else qs) := rfl

/-- Every job found in the map built by loadJobsAux either was already in
the seed map or is the restored image of some record. -/
theorem loadJobsAux_map_pred (P : Job → Prop) :
    ∀ (recs : List JobPersist) (m : String → Option Job) (qs : String → List Job),
      (∀ (id : String) (j : Job), m id = some j → P j) →
      (∀ jp : JobPersist, P (loadJob (restoreRecord jp))) →
      ∀ (id : String) (j : Job), (loadJobsAux recs m qs).1 id = some j → P j := by
  intro recs
  induction recs with
  | nil =>
    intro m qs hm _ id j h
    exact hm id j h
  | cons jp rest ih =>
    intro m qs hm hall id j h
    rw [loadJobsAux_cons] at h
    refine ih _ _ ?_ hall id j h
    intro id2 j2 h2
    unfold updFn at h2
    by_cases he : id2 = (loadJob (restoreRecord jp)).ID
    · rw [if_pos he] at h2
      cases h2
      exact hall jp
    · rw [if_neg he] at h2
      exact hm id2 j2 h2

/-- Class queues only grow while loadJobsAux runs. -/
theorem loadJobsAux_queue_mono :
    ∀ (recs : List JobPersist) (m : String → Option Job) (qs : String → List Job)
      (c : String) (j : Job), j ∈ qs c → j ∈ (loadJobsAux recs m qs).2 c := by
  intro recs
  induction recs with
  | nil =>
    intro m qs c j h
    exact h
  | cons jp rest ih =>
    intro m qs c j h
    rw [loadJobsAux_cons]
    apply ih
    by_cases hs : (loadJob (restoreRecord jp)).Status = JobStatus.queued
    · rw [if_pos hs]
      unfold updFn
      by_cases hc : c = getTaskType (loadJob (restoreRecord jp)).Task
      · rw [if_pos hc]
        rw [← hc]
        exact List.mem_append_left _ h
      · rw [if_neg hc]
        exact h
    · rw [if_neg hs]
      exact h

/-- restoreRecord does not change the task name. -/
theorem restoreRecord_Task (jp : JobPersist) : (restoreRecord jp).Task = jp.Task := by
  unfold restoreRecord
  split <;> rfl

/-- Every record that is still queued after the restore rewrite ends up
in its class queue. -/
theorem loadJobsAux_queued_mem :
    ∀ (recs : List JobPersist) (m : String → Option Job) (qs : String → List Job)
      (jp : JobPersist), jp ∈ recs → (restoreRecord jp).Status = JobStatus.queued →
      loadJob (restoreRecord jp) ∈ (loadJobsAux recs m qs).2 (getTaskType jp.Task) := by
  intro recs
  induction recs with
  | nil =>
    intro m qs jp h
    cases h
  | cons jp0 rest ih =>
    intro m qs jp hmem hq
    rcases List.mem_cons.mp hmem with rfl | hmem
    · rw [loadJobsAux_cons]
      apply loadJobsAux_queue_mono
      have hs : (loadJob (restoreRecord jp)).Status = JobStatus.queued := hq
      rw [if_pos hs]
      unfold updFn
      have ht : getTaskType (loadJob (restoreRecord jp)).Task = getTaskType jp.Task := by
        rw [show (loadJob (restoreRecord jp)).Task = (restoreRecord jp).Task from rfl,
          restoreRecord_Task]
      rw [ht]
      rw [if_pos rfl]
      exact List.mem_append_right _ (List.mem_singleton_self _)
    · rw [loadJobsAux_cons]
      exact ih _ _ jp hmem hq

/-- C6: saving the jobs map and loading it back rewrites every `running`
record to `error` with message "server restarted" and leaves every other
record byte-identical on the persisted fields (loading then projecting
back is the identity on records); every job in the loaded map is
non-`running`; and every record still queued after the rewrite is
re-inserted into the ready queue of its class. -/
theorem saveJobs_loadJobs_roundtrip (jobs : List Job) :
    (∀ jp ∈ saveJobs jobs, jp.Status = JobStatus.running →
      restoreRecord jp = { jp with Status := JobStatus.error, Error := "server restarted" }) ∧
    (∀ jp ∈ saveJobs jobs, jp.Status ≠ JobStatus.running → restoreRecord jp = jp) ∧
    (∀ jp : JobPersist, saveJob (loadJob jp) = jp) ∧
    (∀ (id : String) (j : Job), (loadJobs (saveJobs jobs)).1 id = some j →
      j.Status ≠ JobStatus.running) ∧
    (∀ jp ∈ saveJobs jobs, (restoreRecord jp).Status = JobStatus.queued →
      loadJob (restoreRecord jp) ∈ (loadJobs (saveJobs jobs)).2 (getTaskType jp.Task)) := by
  refine ⟨?_, ?_, ?_, ?_, ?_⟩
  · intro jp _ h
    unfold restoreRecord
    rw [if_pos h]
  · intro jp _ h
    unfold restoreRecord
    rw [if_neg h]
  · intro jp
    rfl
  · apply loadJobsAux_map_pred (fun j => j.Status ≠ JobStatus.running)
    · intro id j h
      cases h
    · intro jp
      show (restoreRecord jp).Status ≠ JobStatus.running
      unfold restoreRecord
      by_cases h : jp.Status = JobStatus.running
      · rw [if_pos h]
        simp
      · rw [if_neg h]
        exact h
  · intro jp hmem hq
    exact loadJobsAux_queued_mem _ _ _ jp hmem hq

/-- C6 witness: in the concrete snapshot the queued fetch job survives
the round trip and sits in the io ready queue. -/
theorem saveJobs_loadJobs_roundtrip_witness :
    loadJob (restoreRecord (saveJob jobC6queued)) ∈
      (loadJobs (saveJobs jobsC6)).2 (getTaskType (saveJob jobC6queued).Task) :=
  (saveJobs_loadJobs_roundtrip jobsC6).2.2.2.2 (saveJob jobC6queued) (by decide) (by decide)

/-- The queue-full check of Submit: the error happens exactly at or above
`maxQueueSize`, and the error branch returns the state unchanged with no
job created. -/
theorem Submit_full_iff (jm : JobManager) (task : String) (params : List (String × String))
    (priority now : Nat) :
    ((jm.Submit task params priority now).2.2 = some "queue full" ↔
      jm.maxQueueSize ≤ (jm.queues (getTaskType task)).length) ∧
    (jm.maxQueueSize ≤ (jm.queues (getTaskType task)).length →
      jm.Submit task params priority now = (jm, none, some "queue full")) := by
  by_cases h : jm.maxQueueSize ≤ (jm.queues (getTaskType task)).length
  · refine ⟨⟨fun _ => h, fun _ => ?_⟩, fun _ => ?_⟩
    · simp [JobManager.Submit, h]
    · simp [JobManager.Submit, h]
  · refine ⟨⟨fun he => ?_, fun hh => absurd hh h⟩, fun hh => absurd hh h⟩
    simp [JobManager.Submit, h] at he

/-- C7: Submit fails with "queue full" exactly when the target class
queue already holds at least `maxQueueSize` jobs; in that case the state
is returned unchanged and no job is created; and the submit handler maps
this failure to the 503 response with `Retry-After: 5` and the
queue-full JSON body. -/
theorem Submit_queue_full (jm : JobManager) (task : String) (params : List (String × String))
    (priority now : Nat) (reqParams : List (String × String)) :
    ((jm.Submit task params priority now).2.2 = some "queue full" ↔
      jm.maxQueueSize ≤ (jm.queues (getTaskType task)).length) ∧
    (jm.maxQueueSize ≤ (jm.queues (getTaskType task)).length →
      jm.Submit task params priority now = (jm, none, some "queue full")) ∧
    (¬ lookupParam reqParams "task" = "" →
      jm.maxQueueSize ≤ (jm.queues (getTaskType (lookupParam reqParams "task"))).length →
      JobSubmitHandler jm reqParams now = (queueFullResponse, jm)) := by
  refine ⟨(Submit_full_iff jm task params priority now).1,
    (Submit_full_iff jm task params priority now).2, ?_⟩
  intro hne hfull
  have hsub : ∀ (ps : List (String × String)) (pr : Nat),
      jm.Submit (lookupParam reqParams "task") ps pr now = (jm, none, some "queue full") :=
    fun ps pr => (Submit_full_iff jm (lookupParam reqParams "task") ps pr now).2 hfull
  simp only [JobSubmitHandler, if_neg hne, hsub]
  rfl

/-- C7 witness: on the concrete manager whose io queue is at its bound of
1, submitting one more fetch job fails atomically and the handler
produces the canonical 503 response. -/
theorem Submit_queue_full_witness :
    jmFull.Submit "fetch" [] PriorityNormal 9 = (jmFull, none, some "queue full") ∧
    JobSubmitHandler jmFull [("task", "fetch")] 9 = (queueFullResponse, jmFull) :=
  ⟨(Submit_queue_full jmFull "fetch" [] PriorityNormal 9 [("task", "fetch")]).2.1 (by decide),
   (Submit_queue_full jmFull "fetch" [] PriorityNormal 9 [("task", "fetch")]).2.2
     (by decide) (by decide)⟩

/-- Enqueue never changes the capacity. -/
theorem Enqueue_capacity {α : Type} (q : TaskQueue α) (x : α) :
    (q.Enqueue x).2.capacity = q.capacity := by
  unfold TaskQueue.Enqueue
  split_ifs <;> rfl

/-- Enqueue never changes the closed flag. -/
theorem Enqueue_closed {α : Type} (q : TaskQueue α) (x : α) :
    (q.Enqueue x).2.closed = q.closed := by
  unfold TaskQueue.Enqueue
  split_ifs <;> rfl

/-- Enqueue keeps the buffer within capacity. -/
theorem Enqueue_length {α : Type} (q : TaskQueue α) (x : α)
    (h : q.items.length ≤ q.capacity) :
    (q.Enqueue x).2.items.length ≤ q.capacity := by
  unfold TaskQueue.Enqueue
  split_ifs with h1 h2
  · exact h
  · exact h
  · simp only [List.length_append, List.length_singleton]
    omega

/-- A successful Enqueue appends the item. -/
theorem Enqueue_items_of_true {α : Type} (q : TaskQueue α) (x : α)
    (h : (q.Enqueue x).1 = true) :
    (q.Enqueue x).2.items = q.items ++ [x] := by
  unfold TaskQueue.Enqueue at h ⊢
  split_ifs at h ⊢ <;> simp_all

/-- A failed Enqueue leaves the queue untouched. -/
theorem Enqueue_eq_of_false {α : Type} (q : TaskQueue α) (x : α)
    (h : (q.Enqueue x).1 = false) :
    (q.Enqueue x).2 = q := by
  unfold TaskQueue.Enqueue at h ⊢
  split_ifs at h ⊢ <;> simp_all

/-- C8 helper: Enqueue fails exactly on a closed or full queue
(`test_server.ps1` lines 77-98). -/
theorem Enqueue_false_iff {α : Type} (q : TaskQueue α) (x : α) :
    (q.Enqueue x).1 = false ↔ (q.closed = true ∨ q.capacity ≤ q.items.length) := by
  unfold TaskQueue.Enqueue
  split_ifs <;> simp [*]

/-- Running any operation sequence preserves the capacity, keeps the
buffer within capacity, and from a closed queue enqueues nothing. -/
theorem runOps_invariant {α : Type} :
    ∀ (ops : List (QOp α)) (q : TaskQueue α),
      (runOps q ops).1.capacity = q.capacity ∧
      (q.items.length ≤ q.capacity → (runOps q ops).1.items.length ≤ q.capacity) ∧
      (q.closed = true → (runOps q ops).1.closed = true ∧ (runOps q ops).2.1 = []) := by
  intro ops
  induction ops with
  | nil =>
    intro q
    exact ⟨rfl, fun h => h, fun h => ⟨h, rfl⟩⟩
  | cons op ops ih =>
    intro q
    cases op with
    | enq x =>
      obtain ⟨ihc, ihl, ihcl⟩ := ih (q.Enqueue x).2
      refine ⟨?_, ?_, ?_⟩
      · show (runOps (q.Enqueue x).2 ops).1.capacity = q.capacity
        rw [ihc, Enqueue_capacity]
      · intro h
        show (runOps (q.Enqueue x).2 ops).1.items.length ≤ q.capacity
        have := ihl (by rw [Enqueue_capacity]; exact Enqueue_length q x h)
        rw [Enqueue_capacity] at this
        exact this
      · intro h
        have hfalse : (q.Enqueue x).1 = false := (Enqueue_false_iff q x).mpr (Or.inl h)
        have hq : (q.Enqueue x).2 = q := Enqueue_eq_of_false q x hfalse
        obtain ⟨hcl, hes⟩ := ihcl (by rw [Enqueue_closed]; exact h)
        refine ⟨hcl, ?_⟩
        show (if (q.Enqueue x).1 = true then x :: (runOps (q.Enqueue x).2 ops).2.1
          else (runOps (q.Enqueue x).2 ops).2.1) = []
        rw [hfalse]
        simpa using hes
    | deq =>
      obtain ⟨items, cap, cl⟩ := q
      cases items with
      | nil =>
        obtain ⟨ihc, ihl, ihcl⟩ := ih ⟨[], cap, cl⟩
        exact ⟨ihc, fun h => ihl h, fun h => ⟨(ihcl h).1, (ihcl h).2⟩⟩
      | cons a t =>
        obtain ⟨ihc, ihl, ihcl⟩ := ih ⟨t, cap, cl⟩
        refine ⟨ihc, fun h => ihl (by simp at h ⊢; omega), fun h => ⟨(ihcl h).1, (ihcl h).2⟩⟩
    | close =>
      obtain ⟨ihc, ihl, ihcl⟩ := ih q.Close
      exact ⟨ihc, fun h => ihl h, fun _ => ihcl rfl⟩

/-- FIFO accounting: the items delivered so far followed by the items
still buffered are exactly the initial buffer followed by the items
successfully enqueued, in order. -/
theorem runOps_fifo {α : Type} :
    ∀ (ops : List (QOp α)) (q : TaskQueue α),
      (runOps q ops).2.2 ++ (runOps q ops).1.items = q.items ++ (runOps q ops).2.1 := by
  intro ops
  induction ops with
  | nil =>
    intro q
    simp [runOps]
  | cons op ops ih =>
    intro q
    cases op with
    | enq x =>
      cases hok : (q.Enqueue x).1 with
      | true =>
        have hitems : (q.Enqueue x).2.items = q.items ++ [x] := Enqueue_items_of_true q x hok
        have := ih (q.Enqueue x).2
        rw [hitems] at this
        show (runOps (q.Enqueue x).2 ops).2.2 ++ (runOps (q.Enqueue x).2 ops).1.items =
          q.items ++ if (q.Enqueue x).1 = true then x :: (runOps (q.Enqueue x).2 ops).2.1
            else (runOps (q.Enqueue x).2 ops).2.1
        rw [hok]
        simpa [List.append_assoc] using this
      | false =>
        have hq : (q.Enqueue x).2 = q := Enqueue_eq_of_false q x hok
        show (runOps (q.Enqueue x).2 ops).2.2 ++ (runOps (q.Enqueue x).2 ops).1.items =
          q.items ++ if (q.Enqueue x).1 = true then x :: (runOps (q.Enqueue x).2 ops).2.1
            else (runOps (q.Enqueue x).2 ops).2.1
        rw [hok, hq]
        simpa using ih q
    | deq =>
      obtain ⟨items, cap, cl⟩ := q
      cases items with
      | nil =>
        simpa [runOps, TaskQueue.Dequeue] using ih ⟨[], cap, cl⟩
      | cons a t =>
        simpa [runOps, TaskQueue.Dequeue] using ih ⟨t, cap, cl⟩
    | close =>
      simpa [runOps, TaskQueue.Close] using ih q.Close

/-- runOps distributes over concatenation of operation sequences. -/
theorem runOps_append {α : Type} :
    ∀ (l1 l2 : List (QOp α)) (q : TaskQueue α),
      runOps q (l1 ++ l2) =
        ((runOps (runOps q l1).1 l2).1,
         (runOps q l1).2.1 ++ (runOps (runOps q l1).1 l2).2.1,
         (runOps q l1).2.2 ++ (runOps (runOps q l1).1 l2).2.2) := by
  intro l1
  induction l1 with
  | nil =>
    intro l2 q
    simp [runOps]
  | cons op l1 ih =>
    intro l2 q
    cases op with
    | enq x =>
      simp only [List.cons_append, runOps, List.append_eq]
      rw [ih l2 (q.Enqueue x).2]
      cases (q.Enqueue x).1 <;> simp
    | deq =>
      simp only [List.cons_append, runOps, List.append_eq]
      rw [ih l2 (q.Dequeue).2]
      cases (q.Dequeue).1 <;> simp
    | close =>
      simp only [List.cons_append, runOps, List.append_eq]
      rw [ih l2 q.Close]

/-- A pure enqueue phase delivers nothing. -/
theorem runOps_enqs {α : Type} :
    ∀ (xs : List α) (q : TaskQueue α), (runOps q (xs.map QOp.enq)).2.2 = [] := by
  intro xs
  induction xs with
  | nil =>
    intro q
    rfl
  | cons x xs ih =>
    intro q
    simpa [runOps] using ih (q.Enqueue x).2

/-- A pure dequeue phase enqueues nothing and delivers the first `M`
buffered items in order. -/
theorem runOps_deqs {α : Type} :
    ∀ (M : Nat) (q : TaskQueue α),
      (runOps q (List.replicate M QOp.deq)).2.1 = [] ∧
      (runOps q (List.replicate M QOp.deq)).2.2 = q.items.take M := by
  intro M
  induction M with
  | zero =>
    intro q
    simp [runOps]
  | succ n ih =>
    intro q
    obtain ⟨items, cap, cl⟩ := q
    cases items with
    | nil =>
      have := ih (⟨[], cap, cl⟩ : TaskQueue α)
      simpa [List.replicate_succ, runOps, TaskQueue.Dequeue] using this
    | cons a t =>
      have := ih (⟨t, cap, cl⟩ : TaskQueue α)
      simp [List.replicate_succ, runOps, TaskQueue.Dequeue, this.1, this.2]

/-- C8: on a freshly constructed bounded queue the buffer never exceeds
the capacity; delivered items followed by the buffered items equal the
successfully enqueued items in order (FIFO, and the delivered sequence is
an order-preserving prefix); Enqueue fails exactly on a closed or full
queue; an enqueue phase of `xs` followed by `M` dequeues delivers exactly
the first `min(N, M)` successfully enqueued items in order; and from a
closed queue every enqueue fails while the buffer stays drainable. -/
theorem TaskQueue_bounded_fifo {α : Type} (C : Nat) (ops : List (QOp α)) :
    ((runOps (NewTaskQueue α C) ops).1.items.length ≤ (NewTaskQueue α C).capacity) ∧
    ((runOps (NewTaskQueue α C) ops).2.2 ++ (runOps (NewTaskQueue α C) ops).1.items =
      (runOps (NewTaskQueue α C) ops).2.1) ∧
    (∀ (q : TaskQueue α) (x : α),
      (q.Enqueue x).1 = false ↔ (q.closed = true ∨ q.capacity ≤ q.items.length)) ∧
    (∀ (xs : List α) (M : Nat),
      (runOps (NewTaskQueue α C) (xs.map QOp.enq ++ List.replicate M QOp.deq)).2.2 =
        (runOps (NewTaskQueue α C) (xs.map QOp.enq ++ List.replicate M QOp.deq)).2.1.take M ∧
      (runOps (NewTaskQueue α C) (xs.map QOp.enq ++ List.replicate M QOp.deq)).2.2.length =
        min (runOps (NewTaskQueue α C) (xs.map QOp.enq ++ List.replicate M QOp.deq)).2.1.length
          M) ∧
    (∀ (q : TaskQueue α) (ops2 : List (QOp α)), q.closed = true →
      (runOps q ops2).2.1 = [] ∧
      (runOps q ops2).2.2 ++ (runOps q ops2).1.items = q.items ++ (runOps q ops2).2.1) := by
  refine ⟨?_, ?_, fun q x => Enqueue_false_iff q x, ?_, ?_⟩
  · have h := (runOps_invariant ops (NewTaskQueue α C)).2.1 (by simp [NewTaskQueue])
    rw [show (NewTaskQueue α C).capacity = (if C = 0 then 100 else C) from rfl] at h ⊢
    exact h
  · have h := runOps_fifo ops (NewTaskQueue α C)
    simpa [NewTaskQueue] using h
  · intro xs M
    have happ := runOps_append (xs.map QOp.enq) (List.replicate M QOp.deq) (NewTaskQueue α C)
    have henq := runOps_enqs xs (NewTaskQueue α C)
    have hdeq := runOps_deqs M (runOps (NewTaskQueue α C) (xs.map QOp.enq)).1
    have hfifo := runOps_fifo (xs.map QOp.enq) (NewTaskQueue α C)
    rw [henq] at hfifo
    have hitems : (runOps (NewTaskQueue α C) (xs.map QOp.enq)).1.items =
        (runOps (NewTaskQueue α C) (xs.map QOp.enq)).2.1 := by
      simpa [NewTaskQueue] using hfifo
    constructor
    · rw [happ]
      simp only [henq, hdeq.1, hdeq.2, List.append_nil, List.nil_append]
      rw [hitems]
    · rw [happ]
      simp only [henq, hdeq.1, hdeq.2, List.append_nil, List.nil_append]
      rw [hitems, List.length_take]
      exact Nat.min_comm _ _
  · intro q ops2 hcl
    exact ⟨((runOps_invariant ops2 q).2.2 hcl).2, runOps_fifo ops2 q⟩

/-- C8 witness: on a concrete closed queue still buffering one item, a
subsequent enqueue delivers nothing new while the buffered item remains
accounted for by the FIFO equation. -/
theorem TaskQueue_bounded_fifo_witness :
    (runOps qClosedEx [QOp.enq 7, QOp.deq]).2.1 = [] ∧
    (runOps qClosedEx [QOp.enq 7, QOp.deq]).2.2 ++
        (runOps qClosedEx [QOp.enq 7, QOp.deq]).1.items =
      qClosedEx.items ++ (runOps qClosedEx [QOp.enq 7, QOp.deq]).2.1 :=
  (TaskQueue_bounded_fifo 3 ([] : List (QOp Nat))).2.2.2.2 qClosedEx [QOp.enq 7, QOp.deq] rfl

/-- goRound is monotone. -/
theorem goRound_mono {x y : ℚ} (h : x ≤ y) : goRound x ≤ goRound y := by
  unfold goRound
  split_ifs with hx hy hy2
  · have hle : (-y + 1 / 2 : ℚ) ≤ -x + 1 / 2 := by linarith
    exact neg_le_neg (Int.floor_le_floor hle)
  · have h1 : (0 : ℤ) ≤ ⌊-x + 1 / 2⌋ := Int.floor_nonneg.mpr (by linarith)
    have h2 : (0 : ℤ) ≤ ⌊y + 1 / 2⌋ := Int.floor_nonneg.mpr (by linarith [not_lt.mp hy])
    omega
  · exact absurd (lt_of_le_of_lt h hy2) hx
  · exact Int.floor_le_floor (by linarith)

/-- round2 is monotone. -/
theorem round2_mono {x y : ℚ} (h : x ≤ y) : round2 x ≤ round2 y := by
  unfold round2
  have hg := goRound_mono (show x * 100 ≤ y * 100 by linarith)
  have hc : ((goRound (x * 100) : ℚ)) ≤ (goRound (y * 100) : ℚ) := by exact_mod_cast hg
  linarith

/-- Adding one half to an integer leaves the floor at that integer. -/
theorem floor_intCast_add_half (m : ℤ) : ⌊(m : ℚ) + 1 / 2⌋ = m := by
  rw [add_comm, Int.floor_add_int]
  have h0 : ⌊(1 / 2 : ℚ)⌋ = 0 := Int.floor_eq_iff.mpr (by norm_num)
  omega

/-- goRound is the identity on integers. -/
theorem goRound_intCast (m : ℤ) : goRound ((m : ℚ)) = m := by
  unfold goRound
  split_ifs with h
  · have h2 : (-(m : ℚ) + 1 / 2) = ((-m : ℤ) : ℚ) + 1 / 2 := by push_cast; ring
    rw [h2, floor_intCast_add_half]
    omega
  · exact floor_intCast_add_half m

/-- round2 is the identity on integral samples (which is what the metric
recorders store: whole milliseconds). -/
theorem round2_intCast (m : ℤ) : round2 ((m : ℚ)) = (m : ℚ) := by
  unfold round2
  have hcast : ((m : ℚ)) * 100 = (((m * 100 : ℤ)) : ℚ) := by push_cast; ring
  rw [hcast, goRound_intCast]
  push_cast
  field_simp

/-- The running-minimum fold is a lower bound of its start value and of
every element. -/
theorem foldl_min_le (l : List ℚ) :
    ∀ init : ℚ,
      (l.foldl (fun m v => if v < m then v else m) init ≤ init) ∧
      (∀ v ∈ l, l.foldl (fun m v => if v < m then v else m) init ≤ v) := by
  induction l with
  | nil =>
    intro init
    exact ⟨le_refl _, by simp⟩
  | cons a t ih =>
    intro init
    simp only [List.foldl_cons]
    obtain ⟨h1, h2⟩ := ih (if a < init then a else init)
    refine ⟨h1.trans ?_, ?_⟩
    · split_ifs with h
      · exact le_of_lt h
      · exact le_refl _
    · intro v hv
      rcases List.mem_cons.mp hv with rfl | hv
      · refine h1.trans ?_
        split_ifs with h
        · exact le_refl _
        · exact not_lt.mp h
      · exact h2 v hv

/-- The running-maximum fold is an upper bound of its start value and of
every element. -/
theorem foldl_max_ge (l : List ℚ) :
    ∀ init : ℚ,
      (init ≤ l.foldl (fun m v => if m < v then v else m) init) ∧
      (∀ v ∈ l, v ≤ l.foldl (fun m v => if m < v then v else m) init) := by
  induction l with
  | nil =>
    intro init
    exact ⟨le_refl _, by simp⟩
  | cons a t ih =>
    intro init
    simp only [List.foldl_cons]
    obtain ⟨h1, h2⟩ := ih (if init < a then a else init)
    refine ⟨le_trans ?_ h1, ?_⟩
    · split_ifs with h
      · exact le_of_lt h
      · exact le_refl _
    · intro v hv
      rcases List.mem_cons.mp hv with rfl | hv
      · refine le_trans ?_ h1
        split_ifs with h
        · exact le_refl _
        · exact not_lt.mp h
      · exact h2 v hv

/-- In an ascending-sorted list the sample at a smaller index is no
larger. -/
theorem sorted_getD_le_getD {l : List ℚ} (hl : l.Pairwise (fun a b => a ≤ b))
    {i j : Nat} (hij : i ≤ j) (hj : j < l.length) : l.getD i 0 ≤ l.getD j 0 := by
  rcases eq_or_lt_of_le hij with rfl | hlt
  · exact le_refl _
  · have hi : i < l.length := lt_trans hlt hj
    rw [List.getD_eq_get _ _ hi, List.getD_eq_get _ _ hj]
    exact List.pairwise_iff_get.mp hl ⟨i, hi⟩ ⟨j, hj⟩ hlt

/-- An in-range getD is a member of the list. -/
theorem getD_mem {l : List ℚ} {i : Nat} (h : i < l.length) : l.getD i 0 ∈ l := by
  rw [List.getD_eq_get _ _ h]
  exact List.get_mem l i h

/-- For non-negative fractions the Go truncation agrees with the floor. -/
theorem goTrunc_nonneg (x : ℚ) (hx : 0 ≤ x) : goTrunc x = ⌊x⌋ := by
  unfold goTrunc
  rw [if_neg (not_lt.mpr hx)]

/-- The clamped percentile index is in range and non-negative. -/
theorem clampIndex_lt (n : Nat) (hn : n ≠ 0) (p : ℚ) (hp : 0 ≤ p) :
    ((if (n : ℤ) ≤ goTrunc ((n : ℚ) * p) then (n : ℤ) - 1
      else goTrunc ((n : ℚ) * p)).toNat < n) ∧
    ((0 : ℤ) ≤ (if (n : ℤ) ≤ goTrunc ((n : ℚ) * p) then (n : ℤ) - 1
      else goTrunc ((n : ℚ) * p))) := by
  have hnn : (0 : ℚ) ≤ (n : ℚ) * p := mul_nonneg (by positivity) hp
  have hg : goTrunc ((n : ℚ) * p) = ⌊(n : ℚ) * p⌋ := goTrunc_nonneg _ hnn
  have hge : (0 : ℤ) ≤ ⌊(n : ℚ) * p⌋ := Int.floor_nonneg.mpr hnn
  constructor
  · split_ifs with h
    · omega
    · rw [hg] at h ⊢
      omega
  · split_ifs with h
    · omega
    · rw [hg]
      exact hge

/-- The clamped percentile index is monotone in the percentile. -/
theorem clampIndex_mono (n : Nat) (p q : ℚ) (hp : 0 ≤ p) (hpq : p ≤ q) :
    (if (n : ℤ) ≤ goTrunc ((n : ℚ) * p) then (n : ℤ) - 1 else goTrunc ((n : ℚ) * p)) ≤
    (if (n : ℤ) ≤ goTrunc ((n : ℚ) * q) then (n : ℤ) - 1 else goTrunc ((n : ℚ) * q)) := by
  have hq : (0 : ℚ) ≤ q := le_trans hp hpq
  have hgp : goTrunc ((n : ℚ) * p) = ⌊(n : ℚ) * p⌋ :=
    goTrunc_nonneg _ (mul_nonneg (by positivity) hp)
  have hgq : goTrunc ((n : ℚ) * q) = ⌊(n : ℚ) * q⌋ :=
    goTrunc_nonneg _ (mul_nonneg (by positivity) hq)
  have hf : ⌊(n : ℚ) * p⌋ ≤ ⌊(n : ℚ) * q⌋ :=
    Int.floor_le_floor (mul_le_mul_of_nonneg_left hpq (by positivity))
  rw [hgp, hgq]
  split_ifs with h1 h2 <;> omega

/-- The sorted snapshot is ascending. -/
theorem swapSort_rat_sorted (values : List ℚ) :
    (swapSort (fun a b => decide (a < b)) values).Pairwise (fun a b => a ≤ b) := by
  have h := swapSort_pairwise (fun a b => decide (a < b))
    (by
      intro a b c hab hbc
      simp only [decide_eq_true_eq] at hab hbc ⊢
      linarith)
    (by
      intro a b hab
      simp only [decide_eq_true_eq] at hab
      simp only [decide_eq_false_iff_not]
      linarith)
    values
  exact h.imp (fun hab => le_of_not_lt (decide_eq_false_iff_not.mp hab))

/-- C9: on a non-empty window the percentile lies between the reported
minimum and maximum, is monotone in the percentile, and on a
single-sample window returns the two-decimal rounding of that sample —
which is the sample itself for the whole-millisecond samples the
recorders store (integral values). -/
theorem calculatePercentile_properties (values : List ℚ) (p q : ℚ)
    (hne : values ≠ []) (hp : 0 ≤ p) (hpq : p ≤ q) :
    (calculateMin values ≤ calculatePercentile values p) ∧
    (calculatePercentile values p ≤ calculateMax values) ∧
    (calculatePercentile values p ≤ calculatePercentile values q) ∧
    (∀ x : ℚ, calculatePercentile [x] p = round2 x) ∧
    (∀ m : ℤ, calculatePercentile [(m : ℚ)] p = (m : ℚ)) ∧
    (∀ x : ℚ, calculateMin [x] = round2 x ∧ calculateMax [x] = round2 x) := by
  have hq : (0 : ℚ) ≤ q := le_trans hp hpq
  have hn0 : ¬ values.length = 0 := by
    intro h
    exact hne (List.eq_nil_of_length_eq_zero h)
  have hperm : (swapSort (fun a b => decide (a < b)) values).Perm values :=
    swapSort_perm _ values
  have hlen : (swapSort (fun a b => decide (a < b)) values).length = values.length :=
    hperm.length_eq
  have hpair := swapSort_rat_sorted values
  have hval : ∀ r : ℚ, calculatePercentile values r =
      round2 ((swapSort (fun a b => decide (a < b)) values).getD
        (if ((swapSort (fun a b => decide (a < b)) values).length : ℤ) ≤
            goTrunc (((swapSort (fun a b => decide (a < b)) values).length : ℚ) * r) then
          ((swapSort (fun a b => decide (a < b)) values).length : ℤ) - 1
        else
          goTrunc (((swapSort (fun a b => decide (a < b)) values).length : ℚ) * r)).toNat 0) := by
    intro r
    unfold calculatePercentile
    rw [if_neg hn0]
  have hslen : (swapSort (fun a b => decide (a < b)) values).length ≠ 0 := by
    rw [hlen]
    exact hn0
  have hidx : ∀ r : ℚ, 0 ≤ r →
      (if ((swapSort (fun a b => decide (a < b)) values).length : ℤ) ≤
          goTrunc (((swapSort (fun a b => decide (a < b)) values).length : ℚ) * r) then
        ((swapSort (fun a b => decide (a < b)) values).length : ℤ) - 1
      else
        goTrunc (((swapSort (fun a b => decide (a < b)) values).length : ℚ) * r)).toNat <
      (swapSort (fun a b => decide (a < b)) values).length := fun r hr =>
    (clampIndex_lt _ hslen r hr).1
  have hmem : ∀ r : ℚ, 0 ≤ r →
      ((swapSort (fun a b => decide (a < b)) values).getD
        (if ((swapSort (fun a b => decide (a < b)) values).length : ℤ) ≤
            goTrunc (((swapSort (fun a b => decide (a < b)) values).length : ℚ) * r) then
          ((swapSort (fun a b => decide (a < b)) values).length : ℤ) - 1
        else
          goTrunc (((swapSort (fun a b => decide (a < b)) values).length : ℚ) * r)).toNat 0) ∈
        values := fun r hr => hperm.mem_iff.mp (getD_mem (hidx r hr))
  have hminmax : ∀ x : ℚ, calculateMin [x] = round2 x ∧ calculateMax [x] = round2 x := by
    intro x
    constructor
    · show round2 (if x < x then x else x) = round2 x
      rw [if_neg (lt_irrefl x)]
    · show round2 (if x < x then x else x) = round2 x
      rw [if_neg (lt_irrefl x)]
  have hsingle : ∀ x : ℚ, calculatePercentile [x] p = round2 x := by
    intro x
    have h1 : calculatePercentile [x] p =
        round2 (([x] : List ℚ).getD
          (if ((1 : ℕ) : ℤ) ≤ goTrunc (((1 : ℕ) : ℚ) * p) then ((1 : ℕ) : ℤ) - 1
          else goTrunc (((1 : ℕ) : ℚ) * p)).toNat 0) := rfl
    rw [h1]
    have hg : goTrunc (((1 : ℕ) : ℚ) * p) = ⌊p⌋ := by
      rw [goTrunc_nonneg _ (mul_nonneg (by positivity) hp)]
      norm_num
    by_cases h : ((1 : ℕ) : ℤ) ≤ goTrunc (((1 : ℕ) : ℚ) * p)
    · rw [if_pos h]
      norm_num
    · rw [if_neg h]
      rw [hg] at h ⊢
      have hge : (0 : ℤ) ≤ ⌊p⌋ := Int.floor_nonneg.mpr hp
      have h0 : ⌊p⌋ = 0 := by
        push_cast at h
        omega
      rw [h0]
      norm_num
  refine ⟨?_, ?_, ?_, hsingle, ?_, hminmax⟩
  · show calculateMin values ≤ calculatePercentile values p
    unfold calculateMin
    rw [if_neg hn0, hval p]
    apply round2_mono
    exact (foldl_min_le values (values.headD 0)).2 _ (hmem p hp)
  · show calculatePercentile values p ≤ calculateMax values
    unfold calculateMax
    rw [if_neg hn0, hval p]
    apply round2_mono
    exact (foldl_max_ge values (values.headD 0)).2 _ (hmem p hp)
  · rw [hval p, hval q]
    apply round2_mono
    apply sorted_getD_le_getD hpair
    · exact Int.toNat_le_toNat (clampIndex_mono _ p q hp hpq)
    · exact hidx q hq
  · intro m
    rw [hsingle ((m : ℚ)), round2_intCast]

/-- C9 witness: on the concrete window [3, 1, 2] with p = 1/2 the median
is bounded below by the reported minimum. -/
theorem calculatePercentile_properties_witness :
    calculateMin [(3 : ℚ), 1, 2] ≤ calculatePercentile [(3 : ℚ), 1, 2] (1 / 2) :=
  (calculatePercentile_properties [(3 : ℚ), 1, 2] (1 / 2) (9 / 10) (by decide) (by norm_num)
    (by norm_num)).1

/-- Cancel never changes the job id. -/
theorem Cancel_ID (j : Job) (now : Nat) : (j.Cancel now).2.ID = j.ID := by
  unfold Job.Cancel
  split <;> rfl

/-- The dispatcher's selection removes no job whose status is not
`queued`: such entries stay in the queue. -/
theorem selectNext_keeps :
    ∀ (q : List Job) (j : Job), j ∈ q → ¬ j.Status = JobStatus.queued →
      j ∈ (selectNext q).2 := by
  intro q
  induction q with
  | nil =>
    intro j h
    cases h
  | cons j0 rest ih =>
    intro j hj hnq
    by_cases h0 : j0.Status = JobStatus.queued
    · simp only [selectNext, h0, if_true]
      rcases List.mem_cons.mp hj with rfl | hj
      · exact absurd h0 hnq
      · exact hj
    · simp only [selectNext, h0, if_false]
      rcases List.mem_cons.mp hj with rfl | hj
      · exact List.mem_cons_self _ _
      · exact List.mem_cons_of_mem _ (ih j hj hnq)

/-- Across any class scan of the dispatcher, a job whose status is not
`queued` keeps its place in its class queue. -/
theorem processNextJob_keeps :
    ∀ (order : List String) (jm : JobManager) (now : Nat) (c : String) (j : Job),
      j ∈ jm.queues c → ¬ j.Status = JobStatus.queued →
      j ∈ (jm.processNextJob order now).queues c := by
  intro order
  induction order with
  | nil =>
    intro jm now c j hj _
    exact hj
  | cons c0 rest ih =>
    intro jm now c j hj hnq
    show j ∈ (JobManager.processNextJob jm (c0 :: rest) now).queues c
    simp only [JobManager.processNextJob]
    split_ifs with h1 h2
    · exact ih jm now c j hj hnq
    · exact ih jm now c j hj hnq
    · cases hsel : selectNext (jm.queues c0) with
    | mk o q2 =>
      cases o with
      | none =>
        simp only [hsel]
        exact ih jm now c j hj hnq
      | some job =>
        simp only [hsel]
        show j ∈ updFn jm.queues c0 q2 c
        unfold updFn
        by_cases hc : c = c0
        · subst hc
          rw [if_pos rfl]
          have hq2 : (selectNext (jm.queues c)).2 = q2 := by
            rw [hsel]
          rw [← hq2]
          exact selectNext_keeps _ j hj hnq
        · rw [if_neg hc]
          exact hj

/-- C10: cancelling a queued job succeeds and marks it canceled, but the
job is never removed from its class ready queue (the queue keeps its
length and its id sequence); the dispatcher removes only `queued` jobs,
so the canceled entry stays behind forever; and Submit's queue-full check
counts the raw queue length, canceled entries included, so the stuck
entry permanently consumes submission capacity. -/
theorem canceled_job_occupies_queue (jm : JobManager) (jobID : String) (now : Nat) :
    (∀ j : Job, jm.jobs jobID = some j → j.Status = JobStatus.queued →
      (jm.CancelJob jobID now).1 = some true ∧
      (jm.CancelJob jobID now).2.jobs jobID = some ((j.Cancel now).2) ∧
      ((j.Cancel now).2.Status = JobStatus.canceled)) ∧
    (∀ c : String, ((jm.CancelJob jobID now).2.queues c).length = (jm.queues c).length) ∧
    (∀ (j : Job) (c : String), jm.jobs jobID = some j → j.ID = jobID →
      ((jm.CancelJob jobID now).2.queues c).map Job.ID = (jm.queues c).map Job.ID) ∧
    (∀ (order : List String) (c : String) (j : Job),
      j ∈ jm.queues c → ¬ j.Status = JobStatus.queued →
      j ∈ (jm.processNextJob order now).queues c) ∧
    (∀ (task : String) (params : List (String × String)) (priority n2 : Nat),
      jm.maxQueueSize ≤ (jm.queues (getTaskType task)).length →
      jm.Submit task params priority n2 = (jm, none, some "queue full")) := by
  refine ⟨?_, ?_, ?_,
    fun order c j hj hnq => processNextJob_keeps order jm now c j hj hnq,
    fun task params priority n2 h => (Submit_full_iff jm task params priority n2).2 h⟩
  · intro j hj hs
    have hcan : (j.Cancel now).1 = true := by
      simp [Job.Cancel, hs]
    refine ⟨?_, ?_, ?_⟩
    · simp only [JobManager.CancelJob, hj]
      rw [hcan]
    · simp only [JobManager.CancelJob, hj]
      simp [updFn]
    · simp [Job.Cancel, hs]
  · intro c
    cases hjm : jm.jobs jobID with
    | none => simp [JobManager.CancelJob, hjm]
    | some j => simp [JobManager.CancelJob, hjm]
  · intro j c hj hid
    simp only [JobManager.CancelJob, hj]
    rw [List.map_map]
    apply List.map_congr_left
    intro e he
    by_cases hide : e.ID = jobID
    · simp only [Function.comp_apply, hide, if_pos]
      rw [Cancel_ID, hid]
    · simp only [Function.comp_apply, if_neg hide]

/-- C10 witness: on the concrete manager with one queued fetch job,
cancelling succeeds, the io queue keeps its single entry, and a further
submission still fails with queue full. -/
theorem canceled_job_occupies_queue_witness :
    (jmCancelEx.CancelJob "fetch-1" 9).1 = some true ∧
    (((jmCancelEx.CancelJob "fetch-1" 9).2.queues "io").map Job.ID =
      (jmCancelEx.queues "io").map Job.ID) ∧
    jmCancelEx.Submit "task2" [] PriorityNormal 9 = (jmCancelEx, none, some "queue full") :=
  ⟨((canceled_job_occupies_queue jmCancelEx "fetch-1" 9).1 jobFetchEx (by decide) (by decide)).1,
   (canceled_job_occupies_queue jmCancelEx "fetch-1" 9).2.2.1 jobFetchEx "io" (by decide)
     (by decide),
   (canceled_job_occupies_queue jmCancelEx "fetch-1" 9).2.2.2.2 "task2" [] PriorityNormal 9
     (by decide)⟩

end GoService
